import Mathlib

/-!
Shallow embedding of the `NonBlocking` read adapter of the `cereal` Go
package, together with theorems checking the natural-language specification
against it.  The embedding follows the Go source: the background pump
(`NewNonBlocking`'s goroutine body), the consumer path (`Read` fast track,
`ReadDeadline`, `readNext`), the shared buffer and terminal-error slot
(`bufwrite`, `setErr`, `Buffered`, `Close`, `Reset`), and the
`exponentialBackoff` helper.  Bytes are modelled as `Nat`, Go
`time.Duration` (an `int64` of nanoseconds) as `Int` with explicit
two's-complement wrapping where the source can overflow.
-/

namespace Cereal

/-- Values that the Go code ever stores in the terminal error slot
`NonBlocking.errfield`: `io.EOF` (set by the pump on end of stream and by
`Close`), the recovered-panic error of the pump goroutine, or some other
error value. -/
inductive TermErr where
  | eof
  | pumpPanic
  | other (k : Nat)
  deriving DecidableEq, Repr

/-- Errors returned by the consumer path: `errDeadlineExceeded` or a value
read from the terminal slot. -/
inductive RErr where
  | deadline
  | term (e : TermErr)
  deriving DecidableEq, Repr

/-- Go's `minD(a, b time.Duration) time.Duration`. -/
def minD (a b : Int) : Int :=
  if a < b then a else b

/-- The fixed poll interval `100 * time.Millisecond` of `readNext`, in
nanoseconds. -/
def pollNs : Int := 100000000

/-- One iteration of `readNext`'s empty-buffer wait loop observes the
environment: `untilNs` is `time.Until(deadline)` at the top of the
iteration, `errS` is the value `nb.err()` returns at that iteration, and
`nAfter` is `nb.Buffered()` after the sleep. -/
structure WaitObs where
  untilNs : Int
  errS : Option TermErr
  nAfter : Nat
  deriving DecidableEq, Repr

/-- Outcome of `readNext`'s wait loop: the deadline fired, the terminal
error was observed, or the buffer was observed non-empty. -/
inductive WaitRes where
  | deadline
  | fail (e : TermErr)
  | ready
  deriving DecidableEq, Repr

/-- The `for n <= 0` wait loop of `readNext` (part_000 lines 146-155),
run against a trace of environment observations.  `n` is the byte count
from the latest `nb.Buffered()` call.  Returns `none` when the trace is
too short to decide the loop, otherwise the loop outcome together with
the list of sleep durations performed (each `minD pollNs untilNs`,
mirroring `time.Sleep(minD(100*time.Millisecond, until))`). -/
def waitLoop (n : Nat) : List WaitObs → Option (WaitRes × List Int)
  | [] => if 0 < n then some (.ready, []) else none
  | o :: rest =>
    if 0 < n then some (.ready, [])
    else if o.untilNs < 0 then some (.deadline, [])
    else
      match o.errS with
      | some e => some (.fail e, [])
      | none =>
        match waitLoop o.nAfter rest with
        | none => none
        | some (r, sl) => some (r, minD pollNs o.untilNs :: sl)

/-- Environment of one `readNext` call: `n0` is `nb.Buffered()` at entry,
`obs` the wait-loop observation trace, and `lockLen` the value of
`nb.buf.Len()` once the mutex is acquired after the loop (it may differ
from the last observation because of concurrent consumers). -/
structure FetchEnv where
  n0 : Nat
  obs : List WaitObs
  lockLen : Nat
  deriving DecidableEq, Repr

/-- `readNext(b, deadline)` (part_000 lines 144-166) with `space = len(b)`:
wait for data, then under the lock either lose the race (`buf.Len() == 0`,
return `(0, nil)`) or take `min space lockLen` bytes via `bytes.Buffer.Read`
whose error is discarded.  Returns the byte count and Go error. -/
def readNextGo (space : Nat) (env : FetchEnv) : Option (Nat × Option RErr) :=
  match waitLoop env.n0 env.obs with
  | none => none
  | some (.deadline, _) => some (0, some .deadline)
  | some (.fail e, _) => some (0, some (.term e))
  | some (.ready, _) => some (min space env.lockLen, none)

/-- The `for err == nil && n < len(b)` loop of `ReadDeadline`
(part_000 lines 128-132), with one `FetchEnv` per `readNext` call. -/
def rdLoop (dstLen : Nat) : Nat → List FetchEnv → Option (Nat × Option RErr)
  | n, [] => if dstLen ≤ n then some (n, none) else none
  | n, env :: rest =>
    if dstLen ≤ n then some (n, none)
    else
      match readNextGo (dstLen - n) env with
      | none => none
      | some (nn, some e) => some (n + nn, some e)
      | some (nn, none) => rdLoop dstLen (n + nn) rest

/-- `ReadDeadline(b, deadline)` (part_000 lines 127-142): run the fetch
loop, then `if n != 0 { return n, nil }`, and surface `nb.err()`
(observed as `errAtEnd`) only when `n == 0` and the loop carried no
error. -/
def readDeadlineGo (dstLen : Nat) (envs : List FetchEnv)
    (errAtEnd : Option TermErr) : Option (Nat × Option RErr) :=
  match rdLoop dstLen 0 envs with
  | none => none
  | some (n, err) =>
    if n ≠ 0 then some (n, none)
    else
      match err with
      | some e => some (0, some e)
      | none =>
        match errAtEnd with
        | some e => some (0, some (.term e))
        | none => some (0, none)

/-- Shared state touched by the zero-timeout `Read` fast path and by the
pump: the FIFO byte buffer `nb.buf` and the terminal slot `nb.errfield`. -/
structure ZState where
  buf : List Nat
  errf : Option TermErr
  deriving DecidableEq, Repr

/-- `bytes.Buffer.Read(p)`: copies `min (len p) (buffer length)` bytes from
the head and removes them; returns the bytes taken and the remaining
buffer. -/
def bufferRead (bs : List Nat) (k : Nat) : List Nat × List Nat :=
  (bs.take k, bs.drop k)

/-- The `Read` fast path for `defaultTimeout == 0` (part_000 lines
115-121): `n, _ := nb.buf.Read(b); return n, nb.errfield`.  Returns the
bytes taken, the returned error, and the post state. -/
def readZeroGo (dstLen : Nat) (s : ZState) : (List Nat × Option TermErr) × ZState :=
  match bufferRead s.buf dstLen with
  | (taken, rest) => ((taken, s.errf), ⟨rest, s.errf⟩)

/-- Advancing the zero-timeout drain scenario by one `Read` call. -/
def drainStep (dstLen : Nat) (s : ZState) : ZState :=
  (readZeroGo dstLen s).2

/-- Start state of the spec's concrete scenario: the underlying stream
yielded exactly 1024 bytes then end-of-stream, the pump buffered them all
and recorded `io.EOF` in the terminal slot. -/
def scenario1024 : ZState :=
  ⟨List.range 1024, some .eof⟩

/-- What the pump does after one underlying `nb.io.Read` returning the
chunk `ch` and error `re` (part_000 lines 91-102): `bufwrite(buf[:n])`
first, then stop on `io.EOF`, otherwise back off on an empty read or
reset the backoff on data. -/
inductive PumpAct where
  | stop
  | miss
  | hit
  deriving DecidableEq, Repr

/-- One iteration of the pump goroutine body after the underlying read
returned `(ch, re)`: append the chunk, then `errors.Is(err, io.EOF)`
decides termination; other errors are discarded. -/
def pumpIter (s : ZState) (ch : List Nat) (re : Option TermErr) : ZState × PumpAct :=
  let s1 : ZState := ⟨s.buf ++ ch, s.errf⟩
  if re = some .eof then (⟨s1.buf, some .eof⟩, .stop)
  else if ch.length = 0 then (s1, .miss)
  else (s1, .hit)

/-- The pump loop `for nb.err() == nil` (part_000 lines 85-103) run over a
script of underlying read results (backpressure skips elided: each list
entry is an iteration that actually issued a read). -/
def pumpRun : List (List Nat × Option TermErr) → ZState → ZState
  | [], s => s
  | (ch, re) :: rest, s =>
    if s.errf ≠ none then s
    else
      match pumpIter s ch re with
      | (s', act) => if act = .stop then s' else pumpRun rest s'

/-- Full adapter state for the producer/consumer transition system:
`produced` is the ghost list of all bytes the underlying stream has
yielded so far, `buf` the shared buffer, `delivered` the ghost list of
bytes already handed to callers, `errf` the terminal slot. -/
structure AdSt where
  produced : List Nat
  buf : List Nat
  delivered : List Nat
  errf : Option TermErr
  deriving DecidableEq, Repr

/-- `setErr` (part_000 lines 197-201): unconditionally stores `err` in the
slot. -/
def setErrGo (e : TermErr) (s : AdSt) : AdSt :=
  { s with errf := some e }

/-- Interleaved steps of the adapter with buffer threshold `T` and chunk
size `C`.  `pump` is one pump iteration that issued an underlying read
(guarded by the `Buffered() >= maxBuffered` backpressure check, line 86);
`take` is a consumer removing bytes from the head (`readNext`'s
`nb.buf.Read`, or the zero-timeout fast path); `close` is `Close` setting
`io.EOF`; `panicked` is the pump's recover handler; `reset` is `Reset`,
only available when the Boolean index is `true`. -/
inductive Step (T C : Nat) : Bool → AdSt → AdSt → Prop where
  | pump : ∀ (ar : Bool) (s : AdSt) (chunk : List Nat) (e : Option TermErr),
      chunk.length ≤ C → (T ≠ 0 → s.buf.length < T) →
      Step T C ar s ⟨s.produced ++ chunk, s.buf ++ chunk, s.delivered,
        if e = some TermErr.eof then some TermErr.eof else s.errf⟩
  | take : ∀ (ar : Bool) (s : AdSt) (space : Nat),
      Step T C ar s ⟨s.produced, s.buf.drop space,
        s.delivered ++ s.buf.take space, s.errf⟩
  | close : ∀ (ar : Bool) (s : AdSt), Step T C ar s (setErrGo .eof s)
  | panicked : ∀ (ar : Bool) (s : AdSt), Step T C ar s (setErrGo .pumpPanic s)
  | reset : ∀ (s : AdSt), Step T C true s ⟨s.produced, [], s.delivered, s.errf⟩

/-- States reachable from a freshly constructed adapter. -/
inductive Reachable (T C : Nat) (ar : Bool) : AdSt → Prop where
  | init : Reachable T C ar ⟨[], [], [], none⟩
  | step : ∀ {s s' : AdSt}, Reachable T C ar s → Step T C ar s s' →
      Reachable T C ar s'

/-- `exponentialBackoff` (part_000 lines 221-230).  `Wait`, `MaxWait` and
`StartWait` are `time.Duration` (`int64`); `ExpMinusOne` is a `uint32`
represented by a `Nat` reduced mod `2 ^ 32` at use sites. -/
structure exponentialBackoff where
  Wait : Int
  MaxWait : Int
  StartWait : Int
  ExpMinusOne : Nat
  deriving DecidableEq, Repr

/-- Go's `x | 1` on a two's-complement `int64`: set the least significant
bit. -/
def orOne (x : Int) : Int :=
  if x % 2 = 0 then x + 1 else x

/-- Wrap an unbounded integer to the signed 64-bit range, as Go's `int64`
arithmetic does. -/
def toInt64 (z : Int) : Int :=
  (z + 2 ^ 63) % 2 ^ 64 - 2 ^ 63

/-- `exponentialBackoff.Hit` (part_000 lines 233-238): panic (`none`) on a
zero `MaxWait`, else reset `Wait` to `StartWait`. -/
def exponentialBackoff.Hit (eb : exponentialBackoff) : Option exponentialBackoff :=
  if eb.MaxWait = 0 then none
  else some { eb with Wait := eb.StartWait }

/-- The value `eb.Wait` holds after `Miss` grows it: `wait |= 1`,
`wait <<= ExpMinusOne + 1` in `int64` arithmetic with the `uint32`
increment wrapping, then `if wait > maxWait { wait = maxWait }`. -/
def nextWait (eb : exponentialBackoff) : Int :=
  if eb.MaxWait < toInt64 (orOne eb.Wait * 2 ^ ((eb.ExpMinusOne % 2 ^ 32 + 1) % 2 ^ 32))
  then eb.MaxWait
  else toInt64 (orOne eb.Wait * 2 ^ ((eb.ExpMinusOne % 2 ^ 32 + 1) % 2 ^ 32))

/-- `exponentialBackoff.Miss` (part_000 lines 241-256): panic (`none`) on
a zero `MaxWait`; otherwise sleep for `Wait` (returned as the second
component) and grow `Wait` to `nextWait`. -/
def exponentialBackoff.Miss (eb : exponentialBackoff) :
    Option (exponentialBackoff × Int) :=
  if eb.MaxWait = 0 then none
  else some ({ eb with Wait := nextWait eb }, eb.Wait)

/-- `NonBlockingConfig` (part_000 lines 35-49): `ReadTimeout` is a
`time.Duration`, the sizes are Go `int`s. -/
structure NonBlockingConfig where
  ReadTimeout : Int
  MaxReadSize : Int
  MaxReadBuffered : Int
  deriving DecidableEq, Repr

/-- The configuration a constructed adapter ends up with: `defaultTimeout`
and `maxBuffered` fields of the struct, and the chunk size `vmin` passed
to the pump goroutine. -/
structure NonBlocking where
  defaultTimeout : Int
  maxBuffered : Int
  vmin : Int
  deriving DecidableEq, Repr

/-- `NewNonBlocking` argument validation and defaulting (part_000 lines
54-71).  `none` models a panic; `rwcIsNil` tells whether the passed
`io.ReadWriteCloser` is nil. -/
def NewNonBlocking (rwcIsNil : Bool) (cfg : NonBlockingConfig) : Option NonBlocking :=
  if rwcIsNil then none
  else if cfg.ReadTimeout < 0 ∨ cfg.MaxReadBuffered < 0 ∨ cfg.MaxReadSize < 0 then none
  else some ⟨cfg.ReadTimeout,
    if cfg.MaxReadBuffered = 0 then 32 * 1024 else cfg.MaxReadBuffered,
    if cfg.MaxReadSize = 0 then 1024 else cfg.MaxReadSize⟩

/-! Theorems. -/

/-- C10: `NewNonBlocking` panics exactly when the underlying stream is nil
or any of `ReadTimeout`, `MaxReadSize`, `MaxReadBuffered` is negative; for
every other input it returns an adapter whose buffer threshold defaults to
32768 and whose chunk size defaults to 1024 when the corresponding
configuration value is zero. -/
theorem c10_constructor_fail_fast (rwcIsNil : Bool) (cfg : NonBlockingConfig) :
    (NewNonBlocking rwcIsNil cfg = none ↔
      (rwcIsNil = true ∨ cfg.ReadTimeout < 0 ∨ cfg.MaxReadSize < 0 ∨
        cfg.MaxReadBuffered < 0)) ∧
    (∀ nb, NewNonBlocking rwcIsNil cfg = some nb →
      nb.defaultTimeout = cfg.ReadTimeout ∧
      nb.maxBuffered = (if cfg.MaxReadBuffered = 0 then 32768 else cfg.MaxReadBuffered) ∧
      nb.vmin = (if cfg.MaxReadSize = 0 then 1024 else cfg.MaxReadSize)) := by
  cases rwcIsNil with
  | true => simp [NewNonBlocking]
  | false =>
    by_cases hp : cfg.ReadTimeout < 0 ∨ cfg.MaxReadBuffered < 0 ∨ cfg.MaxReadSize < 0
    · constructor
      · simp only [NewNonBlocking, Bool.false_eq_true, if_false, if_pos hp]
        tauto
      · intro nb h
        simp [NewNonBlocking, hp] at h
    · constructor
      · simp only [NewNonBlocking, Bool.false_eq_true, if_false, if_neg hp]
        push_neg at hp
        simp
        omega
      · intro nb h
        simp only [NewNonBlocking, Bool.false_eq_true, if_false, if_neg hp,
          Option.some.injEq] at h
        subst h
        norm_num

/-- C10 witness: constructing with a nil stream panics. -/
theorem c10_constructor_fail_fast_witness :
    NewNonBlocking true ⟨0, 0, 0⟩ = none :=
  (c10_constructor_fail_fast true ⟨0, 0, 0⟩).1.mpr (Or.inl rfl)

/-- C9 counterexample: with ceiling `MaxWait = 1 > 0` and current wait `2`,
`Miss` stores the clamped wait `1`, which is smaller than the previous
wait `2`; so the resulting wait is not always at least the previous one. -/
theorem c9_counterexample :
    exponentialBackoff.Miss ⟨2, 1, 0, 0⟩ = some (⟨1, 1, 0, 0⟩, 2) ∧
      ¬ ((2 : Int) ≤ 1) := by
  decide

/-- C9 amended: for a backoff state with positive ceiling, a non-negative
current wait that does not exceed the ceiling, and a shifted value that
does not overflow `int64`, `Miss` sleeps for the current wait and replaces
it with a value at least the previous wait and at most `MaxWait`. -/
theorem c9_backoff_growth (eb eb' : exponentialBackoff) (slp : Int)
    (hmax : 0 < eb.MaxWait) (h0 : 0 ≤ eb.Wait) (hle : eb.Wait ≤ eb.MaxWait)
    (hov : orOne eb.Wait * 2 ^ ((eb.ExpMinusOne % 2 ^ 32 + 1) % 2 ^ 32) < 2 ^ 63)
    (h : eb.Miss = some (eb', slp)) :
    slp = eb.Wait ∧ eb.Wait ≤ eb'.Wait ∧ eb'.Wait ≤ eb.MaxWait := by
  have hne : eb.MaxWait ≠ 0 := by omega
  unfold exponentialBackoff.Miss at h
  rw [if_neg hne] at h
  simp only [Option.some.injEq, Prod.mk.injEq] at h
  obtain ⟨heb, hslp⟩ := h
  have hw1 : eb.Wait ≤ orOne eb.Wait := by
    unfold orOne
    split <;> omega
  have hw1nn : 0 ≤ orOne eb.Wait := le_trans h0 hw1
  have hpow : (0 : Int) < 2 ^ ((eb.ExpMinusOne % 2 ^ 32 + 1) % 2 ^ 32) :=
    pow_pos (by norm_num) _
  have hmul : orOne eb.Wait ≤
      orOne eb.Wait * 2 ^ ((eb.ExpMinusOne % 2 ^ 32 + 1) % 2 ^ 32) :=
    le_mul_of_one_le_right hw1nn (by omega)
  have hprodnn : 0 ≤ orOne eb.Wait * 2 ^ ((eb.ExpMinusOne % 2 ^ 32 + 1) % 2 ^ 32) :=
    le_trans hw1nn hmul
  have hid : toInt64 (orOne eb.Wait * 2 ^ ((eb.ExpMinusOne % 2 ^ 32 + 1) % 2 ^ 32)) =
      orOne eb.Wait * 2 ^ ((eb.ExpMinusOne % 2 ^ 32 + 1) % 2 ^ 32) := by
    unfold toInt64
    have hsum : (2 : Int) ^ 64 = 2 ^ 63 + 2 ^ 63 := by norm_num
    rw [Int.emod_eq_of_lt (by omega) (by omega)]
    ring
  have hWait : eb'.Wait = nextWait eb := by
    rw [← heb]
  rw [hWait]
  unfold nextWait
  rw [hid]
  constructor
  · exact hslp.symm
  · split <;> omega

/-- C9 witness: from the pump's initial backoff state (wait 0, ceiling
150 ms), `Miss` sleeps 0 and grows the wait to 2 ns, within the bounds. -/
theorem c9_backoff_growth_witness :
    (0 : Int) = 0 ∧ (0 : Int) ≤ 2 ∧ (2 : Int) ≤ 150000000 :=
  c9_backoff_growth ⟨0, 150000000, 1, 0⟩ ⟨2, 150000000, 1, 0⟩ 0
    (by decide) (by decide) (by decide) (by decide) (by decide)

/-- C5: a `Read` on an adapter with zero configured timeout takes
`min (len dst) (buffered)` bytes from the head of the shared buffer and
returns them together with the current terminal error slot, leaving the
rest of the buffer in place. -/
theorem c5_zero_timeout_drain (dstLen : Nat) (s : ZState) :
    (readZeroGo dstLen s).1.1 = s.buf.take dstLen ∧
    (readZeroGo dstLen s).1.1.length = min dstLen s.buf.length ∧
    (readZeroGo dstLen s).1.2 = s.errf ∧
    (readZeroGo dstLen s).2.buf = s.buf.drop dstLen ∧
    (readZeroGo dstLen s).2.errf = s.errf ∧
    (readZeroGo dstLen s).1.1 ++ (readZeroGo dstLen s).2.buf = s.buf := by
  unfold readZeroGo bufferRead
  simp [List.length_take]

/-- C4 counterexample: a zero-timeout `Read` on a buffer holding one byte
with the terminal slot already set to `io.EOF` delivers that byte and
still returns the non-nil error, so a non-nil error is not returned only
on zero-byte deliveries. -/
theorem c4_counterexample :
    (readZeroGo 31 ⟨[7], some TermErr.eof⟩).1.1.length ≠ 0 ∧
    (readZeroGo 31 ⟨[7], some TermErr.eof⟩).1.2 ≠ none := by
  decide

set_option maxRecDepth 100000 in
/-- C4 amended: on the deadline path (`ReadDeadline`, hence `Read` with a
non-zero timeout) a non-nil error is returned only with zero bytes; the
zero-timeout fast path instead always returns the current terminal slot
alongside the drained bytes, so in the 1024-byte/31-byte scenario with
timeout 0 the final delivering `Read` returns its last byte together with
`io.EOF`, and the following `Read` returns 0 bytes and `io.EOF`. -/
theorem c4_error_on_empty_delivery :
    (∀ (dstLen : Nat) (envs : List FetchEnv) (errAtEnd : Option TermErr)
        (n : Nat) (e : Option RErr),
      readDeadlineGo dstLen envs errAtEnd = some (n, e) → e ≠ none → n = 0) ∧
    (∀ (dstLen : Nat) (s : ZState),
      (readZeroGo dstLen s).1.2 = s.errf ∧
      (readZeroGo dstLen s).1.1.length = min dstLen s.buf.length) ∧
    (readZeroGo 31 ((drainStep 31)^[33] scenario1024)).1.1.length = 1 ∧
    (readZeroGo 31 ((drainStep 31)^[33] scenario1024)).1.2 = some TermErr.eof ∧
    (readZeroGo 31 ((drainStep 31)^[34] scenario1024)).1 = ([], some TermErr.eof) := by
  refine ⟨?_, ?_, by decide, by decide, by decide⟩
  · intro dstLen envs errAtEnd n e h hne
    unfold readDeadlineGo at h
    split at h
    · exact Option.noConfusion h
    · split at h
      · simp only [Option.some.injEq, Prod.mk.injEq] at h
        exact absurd h.2.symm hne
      · split at h
        · simp_all
        · split at h <;> simp_all
  · intro dstLen s
    unfold readZeroGo bufferRead
    simp [List.length_take]

/-- C4 witness: the deadline-path conjunct applied to a call that delivers
zero bytes and surfaces the terminal error, and the fast-path conjunct at
a concrete state. -/
theorem c4_error_on_empty_delivery_witness :
    (readZeroGo 5 ⟨[1, 2, 3], some TermErr.eof⟩).1.1.length = min 5 3 ∧
      (0 : Nat) = 0 :=
  ⟨(c4_error_on_empty_delivery.2.1 5 ⟨[1, 2, 3], some TermErr.eof⟩).2,
   c4_error_on_empty_delivery.1 0 [] (some TermErr.eof) 0
     (some (RErr.term TermErr.eof)) (by decide) (by decide)⟩

/-- C8: the pump appends any returned bytes to the buffer before checking
the error, terminates with the terminal slot set to `io.EOF` exactly when
the underlying read reports `io.EOF`, discards every other error and keeps
looping (backing off when the read returned zero bytes), and a run never
issues further reads past the end-of-stream iteration. -/
theorem c8_pump_terminal (s : ZState) (ch : List Nat) (re : Option TermErr)
    (rest : List (List Nat × Option TermErr)) :
    ((pumpIter s ch re).2 = PumpAct.stop ↔ re = some TermErr.eof) ∧
    (pumpIter s ch re).1.buf = s.buf ++ ch ∧
    (re = some TermErr.eof → (pumpIter s ch re).1.errf = some TermErr.eof) ∧
    (re ≠ some TermErr.eof → (pumpIter s ch re).1.errf = s.errf ∧
      (ch.length = 0 → (pumpIter s ch re).2 = PumpAct.miss) ∧
      (ch.length ≠ 0 → (pumpIter s ch re).2 = PumpAct.hit)) ∧
    (s.errf = none → pumpRun ((ch, re) :: rest) s =
      (if (pumpIter s ch re).2 = PumpAct.stop then (pumpIter s ch re).1
       else pumpRun rest (pumpIter s ch re).1)) := by
  by_cases he : re = some TermErr.eof <;>
    by_cases hch : ch.length = 0 <;>
      simp [pumpIter, pumpRun, he, hch] <;>
        intro h <;> simp [h]

/-- C1: in every state reachable without `Reset`, the bytes delivered to
callers followed by the current buffer contents are exactly the bytes the
underlying stream has produced, in order — no duplication, no loss. -/
theorem c1_integrity (T C : Nat) (s : AdSt) (h : Reachable T C false s) :
    s.delivered ++ s.buf = s.produced := by
  induction h with
  | init => rfl
  | @step s1 s2 hr hs ih =>
    cases hs with
    | pump a0 a1 chunk e hlen hguard =>
      show s1.delivered ++ (s1.buf ++ chunk) = s1.produced ++ chunk
      rw [← List.append_assoc, ih]
    | take a0 a1 space =>
      show (s1.delivered ++ s1.buf.take space) ++ s1.buf.drop space = s1.produced
      rw [List.append_assoc, List.take_append_drop]
      exact ih
    | close => exact ih
    | panicked => exact ih

/-- C1 witness: after the pump produces `[1, 2]` and a consumer takes one
byte, delivered plus buffered equals produced. -/
theorem c1_integrity_witness : ([1] : List Nat) ++ [2] = [1, 2] :=
  c1_integrity 8 4 _
    (Reachable.step
      (Reachable.step Reachable.init
        (Step.pump false ⟨[], [], [], none⟩ [1, 2] none (by decide)
          (fun _ => by decide)))
      (Step.take false _ 1))

/-- C6 counterexample: with the terminal slot already set to the
pump-failure marker, `setErr io.EOF` (as performed by `Close`) is not a
no-op — it changes the stored value. -/
theorem c6_counterexample :
    (setErrGo TermErr.eof ⟨[], [], [], some TermErr.pumpPanic⟩).errf =
        some TermErr.eof ∧
      setErrGo TermErr.eof ⟨[], [], [], some TermErr.pumpPanic⟩ ≠
        (⟨[], [], [], some TermErr.pumpPanic⟩ : AdSt) := by
  decide

/-- C6 amended: the terminal slot is monotone in being set — once
non-empty it stays non-empty under every adapter step, and `setErr`
always leaves it non-empty (storing its argument, possibly replacing a
previously stored value); only a freshly constructed adapter has an empty
slot. -/
theorem c6_error_slot_monotone (T C : Nat) (ar : Bool) (s s' : AdSt) (e : TermErr) :
    (Step T C ar s s' → s.errf ≠ none → s'.errf ≠ none) ∧
    (setErrGo e s).errf = some e := by
  constructor
  · intro hs hne
    cases hs with
    | pump a0 a1 chunk e2 hlen hguard =>
      show (if e2 = some TermErr.eof then some TermErr.eof else s.errf) ≠ none
      split
      · simp
      · exact hne
    | take a0 a1 space => exact hne
    | close => simp [setErrGo]
    | panicked => simp [setErrGo]
    | reset => exact hne
  · rfl

/-- C6 witness: a `Close` step on a state whose slot holds the
pump-failure marker leaves the slot non-empty. -/
theorem c6_error_slot_monotone_witness :
    (setErrGo TermErr.eof ⟨[], [], [], some TermErr.pumpPanic⟩).errf ≠ none :=
  (c6_error_slot_monotone 1 1 true ⟨[], [], [], some TermErr.pumpPanic⟩
      (setErrGo TermErr.eof ⟨[], [], [], some TermErr.pumpPanic⟩) TermErr.eof).1
    (Step.close true ⟨[], [], [], some TermErr.pumpPanic⟩) (by decide)

/-- C7: with a non-zero buffer threshold `T` and chunk size `C`, every
reachable state keeps the shared buffer length at most `T + C`, because
the pump checks occupancy before each read of at most `C` bytes and
consumer takes and `Reset` only shrink the buffer. -/
theorem c7_buffer_overshoot (T C : Nat) (ar : Bool) (s : AdSt) (hT : T ≠ 0)
    (h : Reachable T C ar s) : s.buf.length ≤ T + C := by
  induction h with
  | init => simp
  | @step s1 s2 hr hs ih =>
    cases hs with
    | pump a0 a1 chunk e hlen hguard =>
      show (s1.buf ++ chunk).length ≤ T + C
      rw [List.length_append]
      have := hguard hT
      omega
    | take a0 a1 space =>
      show (s1.buf.drop space).length ≤ T + C
      rw [List.length_drop]
      omega
    | close => exact ih
    | panicked => exact ih
    | reset =>
      show ([] : List Nat).length ≤ T + C
      simp

/-- C7 witness: one pump step of two bytes under threshold 8 and chunk
size 4 keeps the buffer within 12 bytes. -/
theorem c7_buffer_overshoot_witness : ([5, 6] : List Nat).length ≤ 8 + 4 :=
  c7_buffer_overshoot 8 4 true _ (by decide)
    (Reachable.step Reachable.init
      (Step.pump true ⟨[], [], [], none⟩ [5, 6] none (by decide)
        (fun _ => by decide)))

/-- Helper: once the wait loop sees a positive buffered count it exits
immediately with no sleep. -/
theorem waitLoop_pos (n : Nat) (l : List WaitObs) (h : 0 < n) :
    waitLoop n l = some (.ready, []) := by
  cases l <;> simp [waitLoop, h]

/-- Helper: unfolding of the wait loop on an empty buffered count. -/
theorem waitLoop_zero_cons (o : WaitObs) (rest : List WaitObs) :
    waitLoop 0 (o :: rest) =
      if o.untilNs < 0 then some (.deadline, [])
      else
        match o.errS with
        | some e => some (.fail e, [])
        | none =>
          match waitLoop o.nAfter rest with
          | none => none
          | some (r, sl) => some (r, minD pollNs o.untilNs :: sl) := by
  simp [waitLoop]

/-- Helper: the wait loop entered with an empty buffer ends in
deadline-exceeded exactly when some reached check sees a negative
remaining time, all earlier checks having passed with no terminal error
and an empty buffer after their sleeps. -/
theorem waitLoop_deadline_iff (obs : List WaitObs) :
    (∃ sl, waitLoop 0 obs = some (WaitRes.deadline, sl)) ↔
      ∃ pre od post, obs = pre ++ od :: post ∧ od.untilNs < 0 ∧
        ∀ p ∈ pre, 0 ≤ p.untilNs ∧ p.errS = none ∧ p.nAfter = 0 := by
  induction obs with
  | nil =>
    constructor
    · rintro ⟨sl, h⟩
      simp [waitLoop] at h
    · rintro ⟨pre, od, post, habs, -, -⟩
      cases pre <;> simp at habs
  | cons o rest ih =>
    simp only [waitLoop_zero_cons]
    by_cases hu : o.untilNs < 0
    · simp only [if_pos hu]
      constructor
      · intro _
        exact ⟨[], o, rest, rfl, hu, by simp⟩
      · intro _
        exact ⟨[], rfl⟩
    · simp only [if_neg hu]
      push_neg at hu
      cases he : o.errS with
      | some e =>
        constructor
        · rintro ⟨sl, h⟩
          simp at h
        · rintro ⟨pre, od, post, heq, hod, hpre⟩
          cases pre with
          | nil =>
            simp at heq
            obtain ⟨h1, -⟩ := heq
            subst h1
            omega
          | cons p pre2 =>
            simp at heq
            obtain ⟨h1, -⟩ := heq
            subst h1
            have hp := (hpre o (by simp)).2.1
            simp [he] at hp
      | none =>
        by_cases hn : o.nAfter = 0
        · rw [hn]
          constructor
          · rintro ⟨sl, h⟩
            cases hw : waitLoop 0 rest with
            | none => rw [hw] at h; cases h
            | some p =>
              obtain ⟨r1, sl1⟩ := p
              rw [hw] at h
              simp at h
              obtain ⟨hr1, -⟩ := h
              obtain ⟨pre, od, post, heq, hod, hpre⟩ := ih.mp ⟨sl1, by rw [hw, hr1]⟩
              refine ⟨o :: pre, od, post, by rw [heq]; rfl, hod, ?_⟩
              intro q hq
              rcases List.mem_cons.mp hq with hq | hq
              · subst hq
                exact ⟨hu, he, hn⟩
              · exact hpre q hq
          · rintro ⟨pre, od, post, heq, hod, hpre⟩
            cases pre with
            | nil =>
              simp at heq
              obtain ⟨h1, -⟩ := heq
              subst h1
              omega
            | cons p pre2 =>
              simp at heq
              obtain ⟨h1, h2⟩ := heq
              subst h1
              obtain ⟨sl, hw⟩ := ih.mpr
                ⟨pre2, od, post, h2, hod, fun q hq => hpre q (by simp [hq])⟩
              exact ⟨minD pollNs o.untilNs :: sl, by rw [hw]⟩
        · have hw : waitLoop o.nAfter rest = some (.ready, []) :=
            waitLoop_pos _ _ (by omega)
          simp only [hw]
          constructor
          · rintro ⟨sl, h⟩
            simp at h
          · rintro ⟨pre, od, post, heq, hod, hpre⟩
            cases pre with
            | nil =>
              simp at heq
              obtain ⟨h1, -⟩ := heq
              subst h1
              omega
            | cons p pre2 =>
              simp at heq
              obtain ⟨h1, -⟩ := heq
              subst h1
              exact absurd (hpre o (by simp)).2.2 hn

/-- Helper: every sleep the wait loop performs is `minD pollNs untilNs`
for some reached check that saw a non-negative remaining time and no
terminal error. -/
theorem waitLoop_sleeps (obs : List WaitObs) (n : Nat) (r : WaitRes) (sl : List Int)
    (h : waitLoop n obs = some (r, sl)) :
    ∀ x ∈ sl, ∃ od ∈ obs, 0 ≤ od.untilNs ∧ od.errS = none ∧
      x = minD pollNs od.untilNs := by
  induction obs generalizing n r sl with
  | nil =>
    intro x hx
    by_cases hn : 0 < n
    · rw [waitLoop_pos _ _ hn] at h
      simp at h
      obtain ⟨-, h2⟩ := h
      subst h2
      simp at hx
    · simp [waitLoop, hn] at h
  | cons o rest ih =>
    intro x hx
    by_cases hn : 0 < n
    · rw [waitLoop_pos _ _ hn] at h
      simp at h
      obtain ⟨-, h2⟩ := h
      subst h2
      simp at hx
    · have hn0 : n = 0 := by omega
      subst hn0
      rw [waitLoop_zero_cons] at h
      by_cases hu : o.untilNs < 0
      · rw [if_pos hu] at h
        simp at h
        obtain ⟨-, h2⟩ := h
        subst h2
        simp at hx
      · rw [if_neg hu] at h
        push_neg at hu
        cases he : o.errS with
        | some e =>
          rw [he] at h
          simp at h
          obtain ⟨-, h2⟩ := h
          subst h2
          simp at hx
        | none =>
          rw [he] at h
          cases hw : waitLoop o.nAfter rest with
          | none => rw [hw] at h; cases h
          | some p =>
            obtain ⟨r1, sl1⟩ := p
            rw [hw] at h
            simp at h
            obtain ⟨-, h2⟩ := h
            subst h2
            rcases List.mem_cons.mp hx with hx | hx
            · exact ⟨o, by simp, hu, he, hx⟩
            · obtain ⟨od, hmem, hrest⟩ := ih _ _ _ hw x hx
              exact ⟨od, by simp [hmem], hrest⟩

/-- C3: a `readNext` that observes the buffer empty returns
`(0, errDeadlineExceeded)` exactly when some reached check of its wait
loop sees a negative remaining time; the deadline check precedes the
terminal-error check (a check with negative remaining time fails with
deadline-exceeded even if the terminal slot is set); and every sleep the
loop performs lasts `minD` of the 100 ms poll interval and the remaining
time of its check. -/
theorem c3_deadline_check (space L n : Nat) (obs rest : List WaitObs) (o : WaitObs)
    (r : WaitRes) (sl : List Int) :
    (readNextGo space ⟨0, obs, L⟩ = some (0, some RErr.deadline) ↔
      ∃ pre od post, obs = pre ++ od :: post ∧ od.untilNs < 0 ∧
        ∀ p ∈ pre, 0 ≤ p.untilNs ∧ p.errS = none ∧ p.nAfter = 0) ∧
    (o.untilNs < 0 → waitLoop 0 (o :: rest) = some (WaitRes.deadline, [])) ∧
    (waitLoop n obs = some (r, sl) →
      ∀ x ∈ sl, ∃ od ∈ obs, 0 ≤ od.untilNs ∧ od.errS = none ∧
        x = minD pollNs od.untilNs) := by
  refine ⟨?_, ?_, ?_⟩
  · rw [← waitLoop_deadline_iff]
    unfold readNextGo
    cases hw : waitLoop 0 obs with
    | none => simp [hw]
    | some p =>
      obtain ⟨r1, sl1⟩ := p
      cases r1 <;> simp [hw]
  · intro h
    rw [waitLoop_zero_cons, if_pos h]
  · intro hw
    exact waitLoop_sleeps obs n r sl hw

/-- C3 witness: a single check with the deadline already passed and the
terminal slot set fails with deadline-exceeded, not the terminal error. -/
theorem c3_deadline_check_witness :
    waitLoop 0 [⟨-1, some TermErr.eof, 0⟩] = some (WaitRes.deadline, []) :=
  (c3_deadline_check 1 0 0 [] [] ⟨-1, some TermErr.eof, 0⟩ WaitRes.ready []).2.1
    (by decide)

/-- C2: if the `ReadDeadline` outer loop delivered at least one byte, the
call returns no error even when the fetch that stopped the loop carried
one; and a call on a drained buffer with the terminal slot set and the
deadline not yet passed returns `(0, terminal error)`. -/
theorem c2_deferred_error (dstLen : Nat) (envs : List FetchEnv)
    (errAtEnd : Option TermErr) :
    (∀ n e, readDeadlineGo dstLen envs errAtEnd = some (n, e) → 0 < n → e = none) ∧
    (∀ (e' : TermErr) (u : Int), 0 ≤ u → 0 < dstLen →
      readDeadlineGo dstLen [⟨0, [⟨u, some e', 0⟩], 0⟩] errAtEnd =
        some (0, some (RErr.term e'))) := by
  constructor
  · intro n e h hn
    unfold readDeadlineGo at h
    split at h
    · exact Option.noConfusion h
    · split at h
      · simp only [Option.some.injEq, Prod.mk.injEq] at h
        exact h.2.symm
      · split at h
        · simp_all
        · split at h <;> simp_all
  · intro e' u hu hd
    have h1 : waitLoop 0 [⟨u, some e', 0⟩] = some (.fail e', []) := by
      simp [waitLoop_zero_cons, not_lt.mpr hu]
    have h2 : readNextGo dstLen ⟨0, [⟨u, some e', 0⟩], 0⟩ =
        some (0, some (.term e')) := by
      simp [readNextGo, h1]
    have h3 : rdLoop dstLen 0 [⟨0, [⟨u, some e', 0⟩], 0⟩] =
        some (0, some (.term e')) := by
      simp [rdLoop, h2, (by omega : ¬ dstLen ≤ 0), hd.ne']
    simp [readDeadlineGo, h3]

/-- C2 witness: a drained-buffer call with the slot holding `io.EOF` and a
non-negative remaining time surfaces the terminal error with zero bytes. -/
theorem c2_deferred_error_witness :
    readDeadlineGo 3 [⟨0, [⟨0, some TermErr.eof, 0⟩], 0⟩] none =
      some (0, some (RErr.term TermErr.eof)) :=
  (c2_deferred_error 3 [⟨0, [⟨0, some TermErr.eof, 0⟩], 0⟩] none).2 TermErr.eof 0
    (le_refl 0) (by decide)

/-- C8 witness: a pump run whose first underlying read reports `io.EOF`
performs exactly that one iteration. -/
theorem c8_pump_terminal_witness :
    pumpRun [([1], some TermErr.eof), ([2], none)] ⟨[], none⟩ =
      (if (pumpIter ⟨[], none⟩ [1] (some TermErr.eof)).2 = PumpAct.stop
       then (pumpIter ⟨[], none⟩ [1] (some TermErr.eof)).1
       else pumpRun [([2], none)] (pumpIter ⟨[], none⟩ [1] (some TermErr.eof)).1) :=
  (c8_pump_terminal ⟨[], none⟩ [1] (some TermErr.eof) [([2], none)]).2.2.2.2 rfl

end Cereal
